import Mathlib

set_option autoImplicit false

namespace TerminfoSpec

/-!
Shallow embedding of the terminfo decoding/parsing engine (package `terminfo`:
the textual source parser `Parse`/`addCap`/`resolveUses` from parse.go, and the
compiled-binary reader `readHeader`/`readNumbers`/`readStrings`).

Byte strings are `List Nat` (one Nat per byte, values < 256 for real inputs).
Go maps are modelled as association lists whose observable behaviour (lookup,
membership, iteration over current bindings) matches Go's: `mset` conses the
new binding in front, `alookup` returns the first (newest) binding.
-/

/-- UTF-8 bytes of an ASCII Lean string literal (all inputs used here are ASCII,
where `Char.toNat` of each character is exactly the Go byte). -/
def bytes (s : String) : List Nat := s.data.map Char.toNat

/-- Observation of `v, ok := m[k]` on a Go map modelled as an assoc list:
first (most recently written) binding wins. -/
def alookup {K V : Type} [DecidableEq K] (m : List (K × V)) (k : K) : Option V :=
  (m.find? (fun p => decide (p.1 = k))).map (fun p => p.2)

/-- Go map assignment `m[k] = v`: the new binding shadows any older one. -/
def mset {K V : Type} (k : K) (v : V) (m : List (K × V)) : List (K × V) :=
  (k, v) :: m

/-- The guarded copy used by `resolveUses`:
`if _, ok := ti.X[k]; !ok { ti.X[k] = v }`. -/
def insertIfAbsent {K V : Type} [DecidableEq K] (k : K) (v : V) (m : List (K × V)) :
    List (K × V) :=
  if (alookup m k).isSome then m else (k, v) :: m

/-- `for k, v := range u.X { if _, ok := ti.X[k]; !ok { ti.X[k] = v } }`.
Iteration order over a Go map is unspecified; since only absent keys are
inserted, any order yields the same lookup function, so we fold in list order
(newest binding first, which also resolves shadowed duplicates to the current
Go-map value). -/
def foldIns {V : Type} (target src : List (Nat × V)) : List (Nat × V) :=
  src.foldl (fun m p => insertIfAbsent p.1 p.2 m) target

/-- The `Terminfo` struct fields populated by parse.go. (`BoolsM`/`NumsM`/
`StringsM` are allocated empty by `Parse` and never written or read by the
parsing/resolution code, so they are omitted from the model.) -/
structure Terminfo where
  Names : List (List Nat)
  Bools : List (Nat × Bool)
  Nums : List (Nat × Nat)
  Strings : List (Nat × List Nat)
  ExtBools : List (Nat × Bool)
  ExtNums : List (Nat × Nat)
  ExtStrings : List (Nat × List Nat)
  ExtBoolNames : List (Nat × List Nat)
  ExtNumNames : List (Nat × List Nat)
  ExtStringNames : List (Nat × List Nat)
  Uses : List (List Nat)
deriving DecidableEq, Repr

/-- A fresh entry model: `&Terminfo{Names: names, Bools: make(...), ...}`. -/
def emptyTi (names : List (List Nat)) : Terminfo :=
  { Names := names, Bools := [], Nums := [], Strings := [], ExtBools := [],
    ExtNums := [], ExtStrings := [], ExtBoolNames := [], ExtNumNames := [],
    ExtStringNames := [], Uses := [] }

/-- The parser's escape-state constants `GROUND, INT, NONE, CTRL, ESC`. -/
inductive EscSt where
  | GROUND | INT | NONE | CTRL | ESC
deriving DecidableEq, Repr

/-- The three `addCap` dispatch kinds (the Go `default: panic` arm is
unreachable because the closure is only invoked with these literals). -/
inductive CapKind where
  | bool | num | str
deriving DecidableEq, Repr

/-- Run-time failures of the Go `Parse`: the `panic` on the `\l` escape,
the nil-pointer dereference when a capability is finalized before any entry
header line, and (model-only) exhaustion of the recursion fuel that stands in
for the resolver's unbounded recursion. -/
inductive PErr where
  | weirdFormat | nilModel | outOfFuel
deriving DecidableEq, Repr

/-- The external standard-capability catalog (package-level maps
`boolNameCaps`, `numNameCaps`, `stringNameCaps`): injected data, out of the
parsing core, so the embedding is parametric in it. -/
structure Catalog where
  boolNameCaps : List (List Nat × Nat)
  numNameCaps : List (List Nat × Nat)
  stringNameCaps : List (List Nat × Nat)

/-- The mutable state of one `Parse` call: the collected entries, the entry
under construction, the pending capability name, the machine state, the
accumulator `buf`, and the extended-capability counters and name tables that
are declared once per `Parse` call (outside the line loop). -/
structure PState where
  tis : List Terminfo
  ti : Option Terminfo
  capName : List Nat
  esc : EscSt
  buf : List Nat
  extBoolIdx : Nat
  extNumIdx : Nat
  extStringIdx : Nat
  extBoolNameCaps : List (List Nat × Nat)
  extNumNameCaps : List (List Nat × Nat)
  extStringNameCaps : List (List Nat × Nat)
deriving Repr

def initPState : PState :=
  { tis := [], ti := none, capName := [], esc := EscSt.GROUND, buf := [],
    extBoolIdx := 0, extNumIdx := 0, extStringIdx := 0,
    extBoolNameCaps := [], extNumNameCaps := [], extStringNameCaps := [] }

/-- `buf.WriteByte c`. -/
def stWrite (st : PState) (b : Nat) : PState := { st with buf := st.buf ++ [b] }

/-- Digit value used by `strconv.ParseUint` (0-9, a-z, A-Z). -/
def digitVal (c : Nat) : Option Nat :=
  if 48 ≤ c ∧ c ≤ 57 then some (c - 48)
  else if 97 ≤ c ∧ c ≤ 122 then some (c - 97 + 10)
  else if 65 ≤ c ∧ c ≤ 90 then some (c - 65 + 10)
  else none

/-- Digit loop of `strconv.ParseUint`: an invalid digit is a syntax error
returning value 0; exceeding `maxVal` is a range error returning `maxVal`.
The second component records `err != nil`. -/
def puLoop (base maxVal : Nat) : Nat → List Nat → Nat × Bool
  | n, [] => (n, false)
  | n, c :: rest =>
    match digitVal c with
    | none => (0, true)
    | some d =>
      if base ≤ d then (0, true)
      else
        let n1 := n * base + d
        if maxVal < n1 then (maxVal, true) else puLoop base maxVal n1 rest

/-- `strconv.ParseUint(value, base, 32)` as called by `addCap`:
empty input is a syntax error (value 0); `maxVal = 2^32 - 1`. -/
def parseUintGo (s : List Nat) (base : Nat) : Nat × Bool :=
  if s = [] then (0, true) else puLoop base 4294967295 0 s

/-- The `addCap` closure of `Parse`.  Finalizes the accumulated token as a
bool/num/str capability on the current entry (standard-catalog lookup first,
then this batch's extended name table, else a fresh extended index), resets
`buf`, and returns the machine to `GROUND`.  Dereferencing a nil current entry
is the Go nil-map panic, modelled as `PErr.nilModel`.  A failed numeric parse
only logs: the value produced by `ParseUint` is stored regardless. -/
def addCap (cat : Catalog) (st : PState) (kind : CapKind) : Except PErr PState :=
  match st.ti with
  | none => Except.error PErr.nilModel
  | some ti =>
    let st' : PState :=
      match kind with
      | CapKind.bool =>
        let name := st.buf
        match alookup cat.boolNameCaps name with
        | some cap => { st with ti := some { ti with Bools := mset cap true ti.Bools } }
        | none =>
          match alookup st.extBoolNameCaps name with
          | some cap =>
            { st with ti := some { ti with
                ExtBoolNames := mset cap name ti.ExtBoolNames,
                ExtBools := mset cap true ti.ExtBools } }
          | none =>
            { st with
              extBoolNameCaps := (name, st.extBoolIdx) :: st.extBoolNameCaps,
              ti := some { ti with
                ExtBoolNames := mset st.extBoolIdx name ti.ExtBoolNames,
                ExtBools := mset st.extBoolIdx true ti.ExtBools },
              extBoolIdx := st.extBoolIdx + 1 }
      | CapKind.num =>
        let value := st.buf
        let base : Nat := if value.take 2 = bytes ("0x") then 16 else 10
        let value := if value.take 2 = bytes ("0x") then value.drop 2 else value
        let n := (parseUintGo value base).1
        match alookup cat.numNameCaps st.capName with
        | some cap =>
          { st with ti := some { ti with Nums := mset cap n ti.Nums }, capName := [] }
        | none =>
          match alookup st.extNumNameCaps st.capName with
          | some cap =>
            { st with
              ti := some { ti with
                ExtNumNames := mset cap st.capName ti.ExtNumNames,
                ExtNums := mset cap n ti.ExtNums },
              capName := [] }
          | none =>
            { st with
              extNumNameCaps := (st.capName, st.extNumIdx) :: st.extNumNameCaps,
              ti := some { ti with
                ExtNumNames := mset st.extNumIdx st.capName ti.ExtNumNames,
                ExtNums := mset st.extNumIdx n ti.ExtNums },
              extNumIdx := st.extNumIdx + 1,
              capName := [] }
      | CapKind.str =>
        let value := st.buf
        if st.capName = bytes ("use") then
          { st with ti := some { ti with Uses := ti.Uses ++ [value] }, capName := [] }
        else
          match alookup cat.stringNameCaps st.capName with
          | some cap =>
            { st with ti := some { ti with Strings := mset cap value ti.Strings },
                      capName := [] }
          | none =>
            match alookup st.extStringNameCaps st.capName with
            | some cap =>
              { st with
                ti := some { ti with
                  ExtStringNames := mset cap st.capName ti.ExtStringNames,
                  ExtStrings := mset cap value ti.ExtStrings },
                capName := [] }
            | none =>
              { st with
                extStringNameCaps := (st.capName, st.extStringIdx) :: st.extStringNameCaps,
                ti := some { ti with
                  ExtStringNames := mset st.extStringIdx st.capName ti.ExtStringNames,
                  ExtStrings := mset st.extStringIdx value ti.ExtStrings },
                extStringIdx := st.extStringIdx + 1,
                capName := [] }
    Except.ok { st' with buf := [], esc := EscSt.GROUND }

/-- The character-level state machine over a continuation line's trimmed text
(the `for i := 0; i < len(s); i++` loop of `Parse`).  Three-digit octal
escapes consume two lookahead characters (`i = i + 2`); byte arithmetic of
`((c-'0')*64)+((s[i+1]-'0')*8)+(s[i+2]-'0')` wraps mod 256; the `\l` escape
is the Go `panic("WTF: weird format: ...")`. -/
def runChars (cat : Catalog) : PState → List Nat → Except PErr PState
  | st, [] => Except.ok st
  | st@⟨_, _, _, EscSt.GROUND, _, _, _, _, _, _, _⟩, c :: rest =>
    if c = 61 then
      runChars cat { st with capName := st.buf, buf := [], esc := EscSt.NONE } rest
    else if c = 35 then
      runChars cat { st with capName := st.buf, buf := [], esc := EscSt.INT } rest
    else if c = 44 then
      if st.capName = [] then
        match addCap cat st CapKind.bool with
        | Except.error e => Except.error e
        | Except.ok st2 => runChars cat { st2 with buf := [] } rest
      else
        -- log.Printf("Shouldn't be here: ..."); only buf is reset
        runChars cat { st with buf := [] } rest
    else if c = 32 then runChars cat st rest
    else runChars cat (stWrite st c) rest
  | st@⟨_, _, _, EscSt.INT, _, _, _, _, _, _, _⟩, c :: rest =>
    if c = 44 then
      match addCap cat st CapKind.num with
      | Except.error e => Except.error e
      | Except.ok st2 => runChars cat { st2 with esc := EscSt.GROUND } rest
    else runChars cat (stWrite st c) rest
  | st@⟨_, _, _, EscSt.NONE, _, _, _, _, _, _, _⟩, c :: rest =>
    if c = 92 then runChars cat { st with esc := EscSt.ESC } rest
    else if c = 94 then runChars cat { st with esc := EscSt.CTRL } rest
    else if c = 32 then runChars cat st rest
    else if c = 44 then
      match addCap cat st CapKind.str with
      | Except.error e => Except.error e
      | Except.ok st2 => runChars cat { st2 with esc := EscSt.GROUND } rest
    else runChars cat (stWrite st c) rest
  | st@⟨_, _, _, EscSt.CTRL, _, _, _, _, _, _, _⟩, c :: rest =>
    runChars cat { stWrite st (c ^^^ 64) with esc := EscSt.NONE } rest
  | st@⟨_, _, _, EscSt.ESC, _, _, _, _, _, _, _⟩, c :: rest =>
    if c = 69 ∨ c = 101 then
      runChars cat { stWrite st 27 with esc := EscSt.NONE } rest
    else if 48 ≤ c ∧ c ≤ 55 then
      -- i+2 < len(s) && s[i+1], s[i+2] octal: two lookahead bytes, consumed
      match rest with
      | d1 :: d2 :: rest2 =>
        if 48 ≤ d1 ∧ d1 ≤ 55 ∧ 48 ≤ d2 ∧ d2 ≤ 55 then
          runChars cat
            { stWrite st (((c - 48) * 64 + (d1 - 48) * 8 + (d2 - 48)) % 256) with
              esc := EscSt.NONE } rest2
        else if c = 48 then
          runChars cat { stWrite st 0 with esc := EscSt.NONE } (d1 :: d2 :: rest2)
        else runChars cat { st with esc := EscSt.NONE } (d1 :: d2 :: rest2)
      | rest1 =>
        if c = 48 then runChars cat { stWrite st 0 with esc := EscSt.NONE } rest1
        else runChars cat { st with esc := EscSt.NONE } rest1
    else if c = 110 then runChars cat { stWrite st 10 with esc := EscSt.NONE } rest
    else if c = 114 then runChars cat { stWrite st 13 with esc := EscSt.NONE } rest
    else if c = 116 then runChars cat { stWrite st 9 with esc := EscSt.NONE } rest
    else if c = 98 then runChars cat { stWrite st 8 with esc := EscSt.NONE } rest
    else if c = 102 then runChars cat { stWrite st 12 with esc := EscSt.NONE } rest
    else if c = 115 then runChars cat { stWrite st 32 with esc := EscSt.NONE } rest
    else if c = 44 then runChars cat { stWrite st 44 with esc := EscSt.NONE } rest
    else if c = 108 then Except.error PErr.weirdFormat
    else runChars cat { stWrite st c with esc := EscSt.NONE } rest

/-- `strings.Split` for a one-byte separator (used with `\n` and `,`). -/
def splitOnByte (sep : Nat) : List Nat → List (List Nat)
  | [] => [[]]
  | c :: rest =>
    let r := splitOnByte sep rest
    if c = sep then [] :: r
    else
      match r with
      | h :: t => (c :: h) :: t
      | [] => [[c]]

/-- ASCII whitespace trimmed by `strings.TrimSpace` (the inputs of interest are
ASCII, where this is exactly `strings.TrimSpace`). -/
def isTrimByte (b : Nat) : Bool :=
  b = 32 ∨ b = 9 ∨ b = 10 ∨ b = 11 ∨ b = 12 ∨ b = 13

def trimSpace (l : List Nat) : List Nat :=
  ((l.dropWhile isTrimByte).reverse.dropWhile isTrimByte).reverse

/-- `unicode.IsSpace(rune(line[0]))` on a single byte: the ASCII spaces plus
U+0085 and U+00A0 (a byte is widened to a rune, so Latin-1 spaces count). -/
def isSpaceRuneByte (b : Nat) : Bool :=
  isTrimByte b ∨ b = 133 ∨ b = 160

/-- One iteration of `Parse`'s line loop: skip comment/blank lines; a line not
starting with whitespace appends the in-progress entry and opens a fresh one
named by the first comma field split on `|`; a continuation line feeds its
trimmed text to the state machine.  `buf`, `capName` and `esc` are not reset
at line (or entry) boundaries. -/
def procLine (cat : Catalog) (st : PState) (line : List Nat) : Except PErr PState :=
  match line with
  | [] => Except.ok st
  | b :: _ =>
    if b = 35 ∨ trimSpace line = [] then Except.ok st
    else if isSpaceRuneByte b then runChars cat st (trimSpace line)
    else
      let parts0 := line.takeWhile (fun x => decide (x ≠ 44))
      Except.ok { st with
        tis := st.tis ++ (match st.ti with | some t => [t] | none => []),
        ti := some (emptyTi (splitOnByte 124 parts0)) }

/-- The line loop of `Parse` followed by the final
`if ti != nil { tis = append(tis, ti) }`: the ordered entry sequence before
use-resolution.  Pending `buf`/`capName` content is dropped. -/
def parseEntries (cat : Catalog) (src : List Nat) : Except PErr (List Terminfo) := do
  let st ← (splitOnByte 10 src).foldlM (procLine cat) initPState
  pure (st.tis ++ (match st.ti with | some t => [t] | none => []))

/-- `findTerminfo`: first entry (in batch order) whose `Names` contains the
name.  The Go function returns the entry's pointer; since every entry is a
distinct allocation, the index identifies it, and the value is read from the
current batch at use time. -/
def findTerminfoAux (name : List Nat) : List Terminfo → Nat → Option Nat
  | [], _ => none
  | t :: rest, j =>
    if t.Names.contains name then some j else findTerminfoAux name rest (j + 1)

def findTerminfo (tis : List Terminfo) (name : List Nat) : Option Nat :=
  findTerminfoAux name tis 0

/-- The nine guarded copy loops at the end of `resolveUses`, merging the
referenced model `u` into the referencing model `t`: a binding is copied only
where `t` has none (first-definition-wins). -/
def mergeTi (u t : Terminfo) : Terminfo :=
  { t with
    Bools := foldIns t.Bools u.Bools,
    Nums := foldIns t.Nums u.Nums,
    Strings := foldIns t.Strings u.Strings,
    ExtBoolNames := foldIns t.ExtBoolNames u.ExtBoolNames,
    ExtNumNames := foldIns t.ExtNumNames u.ExtNumNames,
    ExtStringNames := foldIns t.ExtStringNames u.ExtStringNames,
    ExtBools := foldIns t.ExtBools u.ExtBools,
    ExtNums := foldIns t.ExtNums u.ExtNums,
    ExtStrings := foldIns t.ExtStrings u.ExtStrings }

/-- `resolveUses(tis, ti, use)` where `ti` is the entry at index `i` of the
batch (mutated in place in Go, so the batch is threaded through).  A name not
found only logs.  The referenced entry's own `Uses` are recursively resolved
*into entry i* (the Go recursion passes `ti`, not `u` — the loop
`for _, uu := range u.Uses { resolveUses(tis, ti, uu) }` is the fold), and
only then is the referenced entry merged into entry `i`.  Go's recursion is
unbounded (no cycle guard); `fuel` bounds it in the model, `none` marking
non-termination. -/
def resolveUses : Nat → List Terminfo → Nat → List Nat → Option (List Terminfo)
  | 0, _, _, _ => none
  | fuel + 1, tis, i, use =>
    match findTerminfo tis use with
    | none => some tis
    | some j =>
      match (((tis.get? j).map Terminfo.Uses).getD []).foldl
          (fun acc uu => acc.bind (fun ts => resolveUses fuel ts i uu)) (some tis) with
      | none => none
      | some tis2 =>
        match tis2.get? j, tis2.get? i with
        | some u, some t => some (tis2.set i (mergeTi u t))
        | _, _ => some tis2

/-- `for _, use := range ti.Uses { resolveUses(tis, ti, use) }`, with each
call bounded by `fuel`. -/
def resolveList (fuel : Nat) (tis : List Terminfo) (i : Nat)
    (uses : List (List Nat)) : Option (List Terminfo) :=
  uses.foldl (fun acc uu => acc.bind (fun ts => resolveUses fuel ts i uu)) (some tis)

/-- The resolve loop at the end of `Parse`: for each entry in order, resolve
each of its `use` references (each top-level `resolveUses` call starts a fresh
unbounded recursion, uniformly bounded by `fuel` in the model).  Entries with
no uses are untouched; `Uses` itself is never cleared. -/
def resolveAll (fuel : Nat) (tis : List Terminfo) : Option (List Terminfo) :=
  (List.range tis.length).foldl
    (fun acc i =>
      acc.bind (fun ts => resolveList fuel ts i (((ts.get? i).map Terminfo.Uses).getD [])))
    (some tis)

/-- `Parse(data)`: split on newlines, run the line loop, append the last
entry, resolve uses.  The Go function's `error` result is always `nil`; the
`Except` error cases are its panics (plus model-only fuel exhaustion). -/
def Parse (cat : Catalog) (fuel : Nat) (src : List Nat) : Except PErr (List Terminfo) := do
  let entries ← parseEntries cat src
  match resolveAll fuel entries with
  | some tis => pure tis
  | none => Except.error PErr.outOfFuel

/-!
The compiled-binary reader (`header`, `reader.readHeader`, `reader.readNumbers`,
`reader.readStrings`).  The input is the file's byte contents; a fresh reader
from the pool carries a 3000-byte scratch buffer.  Go slice indexing out of
range is a panic, a distinct outcome from the returned errors.
-/

/-- Errors and panics of the binary reader. -/
inductive BinErr where
  | smallFile | badMagic | badString | outOfRange
deriving DecidableEq, Repr

/-- Two's-complement reinterpretation of a byte pair as `int16`. -/
def toInt16 (n : Nat) : Int :=
  if n % 65536 < 32768 then (n % 65536 : Int) else (n % 65536 : Int) - 65536

/-- Wrapping `int16` addition result. -/
def wrap16 (z : Int) : Int := (z + 32768) % 65536 - 32768

/-- Modelled from the spec: the helper `littleEndian(i, buf)` is not among the
given sources; per the spec all multi-byte integers are little-endian signed
16-bit, so it reads bytes `buf[i]` and `buf[i+1]` (Go slice indexing, hence an
out-of-range panic when the buffer is too short, modelled as `none`). -/
def littleEndianAt (i : Nat) (b : List Nat) : Option Int :=
  match b.get? i, b.get? (i + 1) with
  | some lo, some hi => some (toInt16 (lo + 256 * hi))
  | _, _ => none

/-- `h[1] + h[2] + h[3] + h[4] + h[5]` with wrapping `int16` additions
(`header.lenFile`; note: the word counts `h[3]`, `h[4]` are *not* doubled
here, unlike `lenNumeric`/`lenStrings`). -/
def lenFile (h : List Int) : Int :=
  wrap16 (wrap16 (wrap16 (wrap16 (h.getD 1 0 + h.getD 2 0) + h.getD 3 0) + h.getD 4 0) + h.getD 5 0)

/-- The header-field loop `for i := 0; i < 6; i++ { h[i] = littleEndian(i*2, buf) }`,
panicking at the first out-of-range read. -/
def readFields (buf : List Nat) : Option (List Int) :=
  match littleEndianAt 0 buf with
  | none => none
  | some h0 =>
    match littleEndianAt 2 buf with
    | none => none
    | some h1 =>
      match littleEndianAt 4 buf with
      | none => none
      | some h2 =>
        match littleEndianAt 6 buf with
        | none => none
        | some h3 =>
          match littleEndianAt 8 buf with
          | none => none
          | some h4 =>
            match littleEndianAt 10 buf with
            | none => none
            | some h5 => some [h0, h1, h2, h3, h4, h5]

/-- `reader.readHeader` on a fresh pooled reader (scratch buffer length 3000):
the size is compared against `len(r.h)`, which is the *array length* 6, not
the 12-byte `h.len()`; the buffer is shrunk to the file size only when the
file is smaller than the scratch buffer; the declared-length check
`int(h.lenFile()) > len(r.buf)` precedes the magic check.  Returns the header
fields and the read buffer. -/
def readHeaderGo (data : List Nat) : Except BinErr (List Int × List Nat) :=
  if data.length < 6 then Except.error BinErr.smallFile
  else
    let buf := if data.length < 3000 then data else data.take 3000
    match readFields buf with
    | none => Except.error BinErr.outOfRange
    | some h =>
      if lenFile h > (buf.length : Int) then Except.error BinErr.smallFile
      else if h.getD 0 0 ≠ 282 then Except.error BinErr.badMagic
      else Except.ok (h, buf)

/-- The `int16` at (byte) slot position `2*j` of a section slice, `none` when
the loop index would run past the slice (`littleEndian` then panics). -/
def slotOff (buf : List Nat) (j : Nat) : Option Int :=
  littleEndianAt (2 * j) buf

/-- `reader.readNumbers` over the numeric-section slice: slot values `> -1`
are recorded at the slot index, others are skipped; a trailing odd byte makes
`littleEndian` read out of range (panic, `none`). -/
def readNumbersGo (j : Nat) (nbuf : List Nat) : Option (List (Nat × Int)) :=
  match nbuf with
  | [] => some []
  | [_] => none
  | b0 :: b1 :: rest =>
    let n := toInt16 (b0 + 256 * b1)
    match readNumbersGo (j + 1) rest with
    | none => none
    | some m => some (if n > -1 then (j, n) :: m else m)

/-- The NUL scan `for ; table[x] != 0; x++ { if x+1 >= len(table) { return ErrBadString } }`
starting at `x = off`, given `table.drop off`: an empty suffix means the first
index access is already out of range (panic); otherwise either a NUL is found
(the value is the bytes before it) or the scan hits the table end
(`ErrBadString`). -/
def scanNul (seg : List Nat) : Except BinErr (List Nat) :=
  match seg with
  | [] => Except.error BinErr.outOfRange
  | _ =>
    if seg.contains 0 then Except.ok (seg.takeWhile (fun b => decide (b ≠ 0)))
    else Except.error BinErr.badString

/-- `reader.readStrings` over the string-offset slice and the string table:
non-absent offsets (`> -1`) are resolved through the NUL scan and stored at
the slot index; `<= -1` offsets record nothing. -/
def readStringsGo (j : Nat) (sbuf table : List Nat) :
    Except BinErr (List (Nat × List Nat)) :=
  match sbuf with
  | [] => Except.ok []
  | [_] => Except.error BinErr.outOfRange
  | b0 :: b1 :: rest =>
    let off := toInt16 (b0 + 256 * b1)
    if off > -1 then
      match scanNul (table.drop off.toNat) with
      | Except.error e => Except.error e
      | Except.ok v =>
        match readStringsGo (j + 1) rest table with
        | Except.error e => Except.error e
        | Except.ok m => Except.ok ((j, v) :: m)
    else readStringsGo (j + 1) rest table

/-- Header field `i` as decoded from the raw input bytes (used to state the
`SmallFile` characterization). -/
def hdrField (data : List Nat) (i : Nat) : Int :=
  toInt16 (data.getD (2 * i) 0 + 256 * data.getD (2 * i + 1) 0)

/-- `header.lenFile` expressed over the raw input bytes. -/
def lenFileData (data : List Nat) : Int :=
  wrap16 (wrap16 (wrap16 (wrap16 (hdrField data 1 + hdrField data 2) + hdrField data 3)
    + hdrField data 4) + hdrField data 5)

/-!  Concrete catalogs and inputs used by the concrete theorems. -/

/-- A small representative standard catalog: the spec's example capabilities
`am` (bool), `cols` (numeric) and `bold` (string); the index values stand for
the external catalog's fixed indices. -/
def demoCat : Catalog :=
  { boolNameCaps := [(bytes ("am"), 1)],
    numNameCaps := [(bytes ("cols"), 0)],
    stringNameCaps := [(bytes ("bold"), 27)] }

/-- A catalog in which every name is non-standard (extended). -/
def emptyCat : Catalog :=
  { boolNameCaps := [], numNameCaps := [], stringNameCaps := [] }

/-- `A uses B`, `B uses C`, `B` and `C` both define `cols` (5 and 9). -/
def chainSrc : List Nat :=
  bytes ("A,\n\tuse=B,\nB,\n\tcols#5,\n\tuse=C,\nC,\n\tcols#9,")

/-- The same chain shape as ready-made models, with the contested standard
numeric index 0 carrying arbitrary values on B and C and absent on A. -/
def chainA : Terminfo := { emptyTi [bytes ("A")] with Uses := [bytes ("B")] }

def chainB (v : Nat) : Terminfo :=
  { emptyTi [bytes ("B")] with Nums := [(0, v)], Uses := [bytes ("C")] }

def chainC (v : Nat) : Terminfo := { emptyTi [bytes ("C")] with Nums := [(0, v)] }

/-- Two entries, each introducing one fresh non-standard bool name. -/
def extSrcA : List Nat := bytes ("e1,\n\tzzz,\ne2,\n\tyyy,")

/-- Second entry introduces a fresh name and then reuses the first entry's. -/
def extSrcB : List Nat := bytes ("e1,\n\tzzz,\ne2,\n\tyyy, zzz,")

/-- A syntactically invalid and an out-of-range numeric literal. -/
def badNumSrc : List Nat := bytes ("e,\n\tnn#zz, mm#4294967296,")

/-- An invalid numeric literal on a standard capability name. -/
def badNumStd : List Nat := bytes ("f,\n\tcols#zz,")

/-- A string value containing the escape sequence backslash-l. -/
def escLSrc : List Nat := bytes ("x,\n\ta=\\l,")

/-- An entry with one `use` reference resolvable in the batch. -/
def usesSrc : List Nat := bytes ("a,\n\tuse=b,\nb,\n\tam,")

/-- A capability token left unterminated at end of input. -/
def pendSrc : List Nat := bytes ("foo,\n\tam")

/-- A numeric token split across two continuation lines. -/
def carrySrc : List Nat := bytes ("foo,\n\tcols#8\n\t0,")

/-- A numeric token split across lines of two different entries. -/
def carry2Src : List Nat := bytes ("foo,\n\tcols#8\nbar,\n\t0,")

/-- Witness batch: `x` (bool 3 set, uses `y`) and `y` (bools 3 and 4 set). -/
def wTiX : Terminfo :=
  { emptyTi [bytes ("x")] with Bools := [(3, true)], Uses := [bytes ("y")] }

def wTiY : Terminfo :=
  { emptyTi [bytes ("y")] with Bools := [(3, false), (4, true)] }

/-- `wTiX` after `y` is merged in: bool 4 copied, bool 3 kept. -/
def wTiX2 : Terminfo := { wTiX with Bools := [(4, true), (3, true)] }

/-!  Predicates for the resolver's preservation properties. -/

/-- Every binding of `m` is still present, unchanged, in `m2`. -/
def mapLe {V : Type} (m m2 : List (Nat × V)) : Prop :=
  ∀ k v, alookup m k = some v → alookup m2 k = some v

/-- All capability bindings present on `t` are present with the same value on
`t2`: the first-definition-wins guarantee, for each of the nine capability
maps. -/
def capsPreserved (t t2 : Terminfo) : Prop :=
  mapLe t.Bools t2.Bools ∧ mapLe t.Nums t2.Nums ∧ mapLe t.Strings t2.Strings ∧
  mapLe t.ExtBools t2.ExtBools ∧ mapLe t.ExtNums t2.ExtNums ∧
  mapLe t.ExtStrings t2.ExtStrings ∧ mapLe t.ExtBoolNames t2.ExtBoolNames ∧
  mapLe t.ExtNumNames t2.ExtNumNames ∧ mapLe t.ExtStringNames t2.ExtStringNames

/-- Resolution only grows an entry: names and uses are untouched and existing
capability bindings keep their values. -/
def extendsTi (t t2 : Terminfo) : Prop :=
  t2.Names = t.Names ∧ t2.Uses = t.Uses ∧ capsPreserved t t2

/-- Entry-wise `extendsTi` over a batch of equal length. -/
def extendsBatch (tis tis2 : List Terminfo) : Prop :=
  tis2.length = tis.length ∧
  ∀ j t t2, tis.get? j = some t → tis2.get? j = some t2 → extendsTi t t2

/-!  Helper lemmas. -/

theorem alookup_cons {K V : Type} [DecidableEq K] (a : K) (b : V) (m : List (K × V)) (k : K) :
    alookup ((a, b) :: m) k = if a = k then some b else alookup m k := by
  by_cases h : a = k <;> simp [alookup, List.find?, h]

theorem alookup_insertIfAbsent_of_some {K V : Type} [DecidableEq K] {m : List (K × V)}
    {k : K} {v : V} (k2 : K) (v2 : V) (h : alookup m k = some v) :
    alookup (insertIfAbsent k2 v2 m) k = some v := by
  unfold insertIfAbsent
  split
  · exact h
  · next hs =>
    rw [alookup_cons]
    split
    · next he => rw [he, h] at hs; simp at hs
    · exact h

theorem alookup_foldIns_of_some {V : Type} {src : List (Nat × V)} : ∀ {target : List (Nat × V)}
    {k : Nat} {v : V}, alookup target k = some v → alookup (foldIns target src) k = some v := by
  induction src with
  | nil => intro _ _ _ h; exact h
  | cons p rest ih =>
    intro target k v h
    exact ih (alookup_insertIfAbsent_of_some p.1 p.2 h)

theorem mapLe_refl {V : Type} (m : List (Nat × V)) : mapLe m m := fun _ _ h => h

theorem mapLe_trans {V : Type} {a b c : List (Nat × V)} (h1 : mapLe a b) (h2 : mapLe b c) :
    mapLe a c := fun k v h => h2 k v (h1 k v h)

theorem capsPreserved_refl (t : Terminfo) : capsPreserved t t :=
  ⟨mapLe_refl _, mapLe_refl _, mapLe_refl _, mapLe_refl _, mapLe_refl _, mapLe_refl _,
   mapLe_refl _, mapLe_refl _, mapLe_refl _⟩

theorem capsPreserved_trans {a b c : Terminfo} (h1 : capsPreserved a b)
    (h2 : capsPreserved b c) : capsPreserved a c := by
  obtain ⟨p1, p2, p3, p4, p5, p6, p7, p8, p9⟩ := h1
  obtain ⟨q1, q2, q3, q4, q5, q6, q7, q8, q9⟩ := h2
  exact ⟨mapLe_trans p1 q1, mapLe_trans p2 q2, mapLe_trans p3 q3, mapLe_trans p4 q4,
    mapLe_trans p5 q5, mapLe_trans p6 q6, mapLe_trans p7 q7, mapLe_trans p8 q8,
    mapLe_trans p9 q9⟩

theorem extendsTi_refl (t : Terminfo) : extendsTi t t := ⟨rfl, rfl, capsPreserved_refl t⟩

theorem extendsTi_trans {a b c : Terminfo} (h1 : extendsTi a b) (h2 : extendsTi b c) :
    extendsTi a c :=
  ⟨h2.1.trans h1.1, h2.2.1.trans h1.2.1, capsPreserved_trans h1.2.2 h2.2.2⟩

theorem mergeTi_extendsTi (u t : Terminfo) : extendsTi t (mergeTi u t) := by
  refine ⟨rfl, rfl, ?_, ?_, ?_, ?_, ?_, ?_, ?_, ?_, ?_⟩
  all_goals intro k v h
  all_goals exact alookup_foldIns_of_some h

theorem extendsBatch_refl (tis : List Terminfo) : extendsBatch tis tis := by
  refine ⟨rfl, fun j t t2 h1 h2 => ?_⟩
  rw [h1] at h2
  cases h2
  exact extendsTi_refl t

theorem extendsBatch_trans {a b c : List Terminfo} (h1 : extendsBatch a b)
    (h2 : extendsBatch b c) : extendsBatch a c := by
  obtain ⟨l1, e1⟩ := h1
  obtain ⟨l2, e2⟩ := h2
  refine ⟨l2.trans l1, fun j t t2 ha hc => ?_⟩
  have hj : j < b.length := by
    rw [l1]
    by_contra hn
    rw [List.get?_eq_none.mpr (Nat.le_of_not_lt hn)] at ha
    cases ha
  have hb : b.get? j = some (b.get ⟨j, hj⟩) := List.get?_eq_get hj
  exact extendsTi_trans (e1 j t _ ha hb) (e2 j _ t2 hb hc)

theorem extendsBatch_set_merge (tis : List Terminfo) (i : Nat) (u t : Terminfo)
    (ht : tis.get? i = some t) : extendsBatch tis (tis.set i (mergeTi u t)) := by
  refine ⟨List.length_set tis i (mergeTi u t) ▸ rfl, fun j a b hja hjb => ?_⟩
  by_cases hji : j = i
  · subst hji
    rw [ht] at hja
    cases hja
    have hi : j < tis.length := by
      by_contra hn
      rw [List.get?_eq_none.mpr (Nat.le_of_not_lt hn)] at ht
      cases ht
    rw [List.get?_set_eq_of_lt _ hi] at hjb
    cases hjb
    exact mergeTi_extendsTi u t
  · rw [List.get?_set_ne _ _ (fun he => hji he.symm)] at hjb
    rw [hja] at hjb
    cases hjb
    exact extendsTi_refl a

theorem foldl_bind_none {α β : Type} (g : α → β → Option α) (l : List β) :
    l.foldl (fun acc b => acc.bind (fun x => g x b)) none = none := by
  induction l with
  | nil => rfl
  | cons b rest ih => simpa using ih

theorem resolveList_extends_of (fuel : Nat)
    (H : ∀ tis i use tis2, resolveUses fuel tis i use = some tis2 → extendsBatch tis tis2) :
    ∀ (uses : List (List Nat)) (tis : List Terminfo) (i : Nat) (tis2 : List Terminfo),
      resolveList fuel tis i uses = some tis2 → extendsBatch tis tis2 := by
  intro uses
  induction uses with
  | nil =>
    intro tis i tis2 h
    cases h
    exact extendsBatch_refl tis
  | cons u rest ih =>
    intro tis i tis2 h
    have hstep : resolveList fuel tis i (u :: rest)
        = (rest.foldl (fun acc uu => acc.bind (fun ts => resolveUses fuel ts i uu))
            (resolveUses fuel tis i u)) := rfl
    cases hr : resolveUses fuel tis i u with
    | none =>
      rw [hstep, hr] at h
      rw [foldl_bind_none (fun ts uu => resolveUses fuel ts i uu) rest] at h
      cases h
    | some tmid =>
      rw [hstep, hr] at h
      exact extendsBatch_trans (H tis i u tmid hr) (ih tmid i tis2 h)

theorem resolveUses_extends : ∀ (fuel : Nat) (tis : List Terminfo) (i : Nat) (use : List Nat)
    (tis2 : List Terminfo), resolveUses fuel tis i use = some tis2 → extendsBatch tis tis2 := by
  intro fuel
  induction fuel with
  | zero => intro _ _ _ _ h; cases h
  | succ f ih =>
    intro tis i use tis2 h
    unfold resolveUses at h
    split at h
    · cases h
      exact extendsBatch_refl tis
    · split at h
      · cases h
      · next tmid hm =>
        have hmid : extendsBatch tis tmid := resolveList_extends_of f ih _ tis i tmid hm
        split at h
        · next u t hu hti =>
          cases h
          exact extendsBatch_trans hmid (extendsBatch_set_merge tmid i u t hti)
        · cases h
          exact hmid

theorem resolveAllGo_extends (fuel : Nat) : ∀ (idxs : List Nat) (tis tis2 : List Terminfo),
    idxs.foldl (fun acc i => acc.bind
        (fun ts => resolveList fuel ts i (((ts.get? i).map Terminfo.Uses).getD [])))
      (some tis) = some tis2 →
    extendsBatch tis tis2 := by
  intro idxs
  induction idxs with
  | nil =>
    intro tis tis2 h
    cases h
    exact extendsBatch_refl tis
  | cons i rest ih =>
    intro tis tis2 h
    have hstep : (i :: rest).foldl (fun acc i => acc.bind
          (fun ts => resolveList fuel ts i (((ts.get? i).map Terminfo.Uses).getD [])))
        (some tis)
        = rest.foldl (fun acc i => acc.bind
            (fun ts => resolveList fuel ts i (((ts.get? i).map Terminfo.Uses).getD [])))
          (resolveList fuel tis i (((tis.get? i).map Terminfo.Uses).getD [])) := rfl
    cases hr : resolveList fuel tis i (((tis.get? i).map Terminfo.Uses).getD []) with
    | none =>
      rw [hstep, hr] at h
      rw [foldl_bind_none
        (fun ts i => resolveList fuel ts i (((ts.get? i).map Terminfo.Uses).getD [])) rest] at h
      cases h
    | some tmid =>
      rw [hstep, hr] at h
      exact extendsBatch_trans
        (resolveList_extends_of fuel (fun a b c d => resolveUses_extends fuel a b c d) _ tis i tmid hr)
        (ih tmid tis2 h)

theorem resolveAll_extends (fuel : Nat) (tis tis2 : List Terminfo)
    (h : resolveAll fuel tis = some tis2) : extendsBatch tis tis2 :=
  resolveAllGo_extends fuel (List.range tis.length) tis tis2 h

/-!  Unfolding equations for `runChars`, one per machine state (the
auto-generated equations split on the octal lookahead shape, which these do
not). -/

theorem runChars_nil (cat : Catalog) (st : PState) : runChars cat st [] = Except.ok st := by
  cases st with
  | mk a b cp e bf i1 i2 i3 m1 m2 m3 => cases e <;> rfl

theorem runChars_ground (cat : Catalog) (a : List Terminfo) (b : Option Terminfo)
    (cp bf : List Nat) (i1 i2 i3 : Nat) (m1 m2 m3 : List (List Nat × Nat))
    (c : Nat) (rest : List Nat) :
    runChars cat ⟨a, b, cp, EscSt.GROUND, bf, i1, i2, i3, m1, m2, m3⟩ (c :: rest) =
      (if c = 61 then
        runChars cat ⟨a, b, bf, EscSt.NONE, [], i1, i2, i3, m1, m2, m3⟩ rest
      else if c = 35 then
        runChars cat ⟨a, b, bf, EscSt.INT, [], i1, i2, i3, m1, m2, m3⟩ rest
      else if c = 44 then
        if cp = [] then
          match addCap cat ⟨a, b, cp, EscSt.GROUND, bf, i1, i2, i3, m1, m2, m3⟩ CapKind.bool with
          | Except.error e => Except.error e
          | Except.ok st2 => runChars cat { st2 with buf := [] } rest
        else runChars cat ⟨a, b, cp, EscSt.GROUND, [], i1, i2, i3, m1, m2, m3⟩ rest
      else if c = 32 then
        runChars cat ⟨a, b, cp, EscSt.GROUND, bf, i1, i2, i3, m1, m2, m3⟩ rest
      else runChars cat ⟨a, b, cp, EscSt.GROUND, bf ++ [c], i1, i2, i3, m1, m2, m3⟩ rest) := rfl

theorem runChars_int (cat : Catalog) (a : List Terminfo) (b : Option Terminfo)
    (cp bf : List Nat) (i1 i2 i3 : Nat) (m1 m2 m3 : List (List Nat × Nat))
    (c : Nat) (rest : List Nat) :
    runChars cat ⟨a, b, cp, EscSt.INT, bf, i1, i2, i3, m1, m2, m3⟩ (c :: rest) =
      (if c = 44 then
        match addCap cat ⟨a, b, cp, EscSt.INT, bf, i1, i2, i3, m1, m2, m3⟩ CapKind.num with
        | Except.error e => Except.error e
        | Except.ok st2 => runChars cat { st2 with esc := EscSt.GROUND } rest
      else runChars cat ⟨a, b, cp, EscSt.INT, bf ++ [c], i1, i2, i3, m1, m2, m3⟩ rest) := rfl

theorem runChars_none (cat : Catalog) (a : List Terminfo) (b : Option Terminfo)
    (cp bf : List Nat) (i1 i2 i3 : Nat) (m1 m2 m3 : List (List Nat × Nat))
    (c : Nat) (rest : List Nat) :
    runChars cat ⟨a, b, cp, EscSt.NONE, bf, i1, i2, i3, m1, m2, m3⟩ (c :: rest) =
      (if c = 92 then
        runChars cat ⟨a, b, cp, EscSt.ESC, bf, i1, i2, i3, m1, m2, m3⟩ rest
      else if c = 94 then
        runChars cat ⟨a, b, cp, EscSt.CTRL, bf, i1, i2, i3, m1, m2, m3⟩ rest
      else if c = 32 then
        runChars cat ⟨a, b, cp, EscSt.NONE, bf, i1, i2, i3, m1, m2, m3⟩ rest
      else if c = 44 then
        match addCap cat ⟨a, b, cp, EscSt.NONE, bf, i1, i2, i3, m1, m2, m3⟩ CapKind.str with
        | Except.error e => Except.error e
        | Except.ok st2 => runChars cat { st2 with esc := EscSt.GROUND } rest
      else runChars cat ⟨a, b, cp, EscSt.NONE, bf ++ [c], i1, i2, i3, m1, m2, m3⟩ rest) := rfl

theorem runChars_ctrl (cat : Catalog) (a : List Terminfo) (b : Option Terminfo)
    (cp bf : List Nat) (i1 i2 i3 : Nat) (m1 m2 m3 : List (List Nat × Nat))
    (c : Nat) (rest : List Nat) :
    runChars cat ⟨a, b, cp, EscSt.CTRL, bf, i1, i2, i3, m1, m2, m3⟩ (c :: rest) =
      runChars cat ⟨a, b, cp, EscSt.NONE, bf ++ [c ^^^ 64], i1, i2, i3, m1, m2, m3⟩ rest := rfl

theorem runChars_esc (cat : Catalog) (a : List Terminfo) (b : Option Terminfo)
    (cp bf : List Nat) (i1 i2 i3 : Nat) (m1 m2 m3 : List (List Nat × Nat))
    (c : Nat) (rest : List Nat) :
    runChars cat ⟨a, b, cp, EscSt.ESC, bf, i1, i2, i3, m1, m2, m3⟩ (c :: rest) =
      (if c = 69 ∨ c = 101 then
        runChars cat ⟨a, b, cp, EscSt.NONE, bf ++ [27], i1, i2, i3, m1, m2, m3⟩ rest
      else if 48 ≤ c ∧ c ≤ 55 then
        match rest with
        | d1 :: d2 :: rest2 =>
          if 48 ≤ d1 ∧ d1 ≤ 55 ∧ 48 ≤ d2 ∧ d2 ≤ 55 then
            runChars cat
              ⟨a, b, cp, EscSt.NONE, bf ++ [((c - 48) * 64 + (d1 - 48) * 8 + (d2 - 48)) % 256],
                i1, i2, i3, m1, m2, m3⟩ rest2
          else if c = 48 then
            runChars cat ⟨a, b, cp, EscSt.NONE, bf ++ [0], i1, i2, i3, m1, m2, m3⟩
              (d1 :: d2 :: rest2)
          else runChars cat ⟨a, b, cp, EscSt.NONE, bf, i1, i2, i3, m1, m2, m3⟩
              (d1 :: d2 :: rest2)
        | rest1 =>
          if c = 48 then
            runChars cat ⟨a, b, cp, EscSt.NONE, bf ++ [0], i1, i2, i3, m1, m2, m3⟩ rest1
          else runChars cat ⟨a, b, cp, EscSt.NONE, bf, i1, i2, i3, m1, m2, m3⟩ rest1
      else if c = 110 then
        runChars cat ⟨a, b, cp, EscSt.NONE, bf ++ [10], i1, i2, i3, m1, m2, m3⟩ rest
      else if c = 114 then
        runChars cat ⟨a, b, cp, EscSt.NONE, bf ++ [13], i1, i2, i3, m1, m2, m3⟩ rest
      else if c = 116 then
        runChars cat ⟨a, b, cp, EscSt.NONE, bf ++ [9], i1, i2, i3, m1, m2, m3⟩ rest
      else if c = 98 then
        runChars cat ⟨a, b, cp, EscSt.NONE, bf ++ [8], i1, i2, i3, m1, m2, m3⟩ rest
      else if c = 102 then
        runChars cat ⟨a, b, cp, EscSt.NONE, bf ++ [12], i1, i2, i3, m1, m2, m3⟩ rest
      else if c = 115 then
        runChars cat ⟨a, b, cp, EscSt.NONE, bf ++ [32], i1, i2, i3, m1, m2, m3⟩ rest
      else if c = 44 then
        runChars cat ⟨a, b, cp, EscSt.NONE, bf ++ [44], i1, i2, i3, m1, m2, m3⟩ rest
      else if c = 108 then Except.error PErr.weirdFormat
      else runChars cat ⟨a, b, cp, EscSt.NONE, bf ++ [c], i1, i2, i3, m1, m2, m3⟩ rest) := by
  cases rest with
  | nil => rfl
  | cons d1 rest' =>
    cases rest' with
    | nil => rfl
    | cons d2 rest2 => rfl

set_option maxHeartbeats 3200000

/-- No capability is ever finalized by a character other than `,`: running the
machine over a comma-free stretch of input leaves the collected entries and
the entry under construction untouched (only `buf`/`capName`/`esc` change). -/
theorem runChars_no_comma (cat : Catalog) :
    ∀ (st : PState) (line : List Nat), 44 ∉ line →
      ∀ st2, runChars cat st line = Except.ok st2 → st2.ti = st.ti ∧ st2.tis = st.tis := by
  intro st line
  induction st, line using runChars.induct cat
  all_goals intro hnc st2 h
  case case1 =>
    rw [runChars_nil] at h
    injection h with h1
    subst h1
    exact ⟨rfl, rfl⟩
  case case2 => rename_i ih; exact ih (fun hm => hnc (List.mem_cons_of_mem _ hm)) st2 h
  case case3 => rename_i ih; exact ih (fun hm => hnc (List.mem_cons_of_mem _ hm)) st2 h
  case case4 => exact absurd (List.mem_cons_self 44 _) hnc
  case case5 => exact absurd (List.mem_cons_self 44 _) hnc
  case case6 => exact absurd (List.mem_cons_self 44 _) hnc
  case case7 => rename_i ih; exact ih (fun hm => hnc (List.mem_cons_of_mem _ hm)) st2 h
  case case8 =>
    rename_i h61 h35 h44 h32 ih
    rw [runChars_ground, if_neg h61, if_neg h35, if_neg h44, if_neg h32] at h
    exact ih (fun hm => hnc (List.mem_cons_of_mem _ hm)) st2 h
  case case9 => exact absurd (List.mem_cons_self 44 _) hnc
  case case10 => exact absurd (List.mem_cons_self 44 _) hnc
  case case11 =>
    rename_i h44 ih
    rw [runChars_int, if_neg h44] at h
    exact ih (fun hm => hnc (List.mem_cons_of_mem _ hm)) st2 h
  case case12 => rename_i ih; exact ih (fun hm => hnc (List.mem_cons_of_mem _ hm)) st2 h
  case case13 => rename_i ih; exact ih (fun hm => hnc (List.mem_cons_of_mem _ hm)) st2 h
  case case14 => rename_i ih; exact ih (fun hm => hnc (List.mem_cons_of_mem _ hm)) st2 h
  case case15 => exact absurd (List.mem_cons_self 44 _) hnc
  case case16 => exact absurd (List.mem_cons_self 44 _) hnc
  case case17 =>
    rename_i h92 h94 h32 h44 ih
    rw [runChars_none, if_neg h92, if_neg h94, if_neg h32, if_neg h44] at h
    exact ih (fun hm => hnc (List.mem_cons_of_mem _ hm)) st2 h
  case case18 => rename_i ih; exact ih (fun hm => hnc (List.mem_cons_of_mem _ hm)) st2 h
  case case19 =>
    rename_i hor ih
    rcases hor with hc | hc <;> subst hc <;> rw [runChars_esc] at h
    · rw [if_pos (Or.inl rfl)] at h
      exact ih (fun hm => hnc (List.mem_cons_of_mem _ hm)) st2 h
    · rw [if_pos (Or.inr rfl)] at h
      exact ih (fun hm => hnc (List.mem_cons_of_mem _ hm)) st2 h
  case case20 =>
    rename_i hEe hoct d1 d2 rest2 hg ih
    rw [runChars_esc, if_neg hEe, if_pos hoct] at h
    simp only [if_pos hg] at h
    exact ih (fun hm => hnc (List.mem_cons_of_mem _
      (List.mem_cons_of_mem _ (List.mem_cons_of_mem _ hm)))) st2 h
  case case21 =>
    rename_i hng hEe hoct ih
    rw [runChars_esc, if_neg hEe, if_pos hoct] at h
    simp only [if_neg hng] at h
    exact ih (fun hm => hnc (List.mem_cons_of_mem _ hm)) st2 h
  case case22 =>
    rename_i hEe hoct d1 d2 rest2 hng h48 ih
    rw [runChars_esc, if_neg hEe, if_pos hoct] at h
    simp only [if_neg hng, if_neg h48] at h
    exact ih (fun hm => hnc (List.mem_cons_of_mem _ hm)) st2 h
  case case23 =>
    rename_i rest1 hx hEe hoct ih
    rcases rest1 with _ | ⟨e1, _ | ⟨e2, r⟩⟩
    · exact ih (fun hm => hnc (List.mem_cons_of_mem _ hm)) st2 h
    · exact ih (fun hm => hnc (List.mem_cons_of_mem _ hm)) st2 h
    · exact absurd rfl (hx e1 e2 r)
  case case24 =>
    rename_i hEe hoct rest1 hx h48 ih
    rcases rest1 with _ | ⟨e1, _ | ⟨e2, r⟩⟩
    · rw [runChars_esc, if_neg hEe, if_pos hoct] at h
      simp only [if_neg h48] at h
      exact ih (fun hm => hnc (List.mem_cons_of_mem _ hm)) st2 h
    · rw [runChars_esc, if_neg hEe, if_pos hoct] at h
      simp only [if_neg h48] at h
      exact ih (fun hm => hnc (List.mem_cons_of_mem _ hm)) st2 h
    · exact absurd rfl (hx e1 e2 r)
  case case25 =>
    rename_i hEe hoct ih
    rw [runChars_esc, if_neg hEe, if_neg hoct, if_pos rfl] at h
    exact ih (fun hm => hnc (List.mem_cons_of_mem _ hm)) st2 h
  case case26 =>
    rename_i hEe hoct hn ih
    rw [runChars_esc, if_neg hEe, if_neg hoct, if_neg hn, if_pos rfl] at h
    exact ih (fun hm => hnc (List.mem_cons_of_mem _ hm)) st2 h
  case case27 =>
    rename_i hEe hoct hn hr ih
    rw [runChars_esc, if_neg hEe, if_neg hoct, if_neg hn, if_neg hr, if_pos rfl] at h
    exact ih (fun hm => hnc (List.mem_cons_of_mem _ hm)) st2 h
  case case28 =>
    rename_i hEe hoct hn hr ht ih
    rw [runChars_esc, if_neg hEe, if_neg hoct, if_neg hn, if_neg hr, if_neg ht, if_pos rfl] at h
    exact ih (fun hm => hnc (List.mem_cons_of_mem _ hm)) st2 h
  case case29 =>
    rename_i hEe hoct hn hr ht hb ih
    rw [runChars_esc, if_neg hEe, if_neg hoct, if_neg hn, if_neg hr, if_neg ht, if_neg hb, if_pos rfl] at h
    exact ih (fun hm => hnc (List.mem_cons_of_mem _ hm)) st2 h
  case case30 =>
    rename_i hEe hoct hn hr ht hb hf ih
    rw [runChars_esc, if_neg hEe, if_neg hoct, if_neg hn, if_neg hr, if_neg ht, if_neg hb, if_neg hf, if_pos rfl] at h
    exact ih (fun hm => hnc (List.mem_cons_of_mem _ hm)) st2 h
  case case31 => exact absurd (List.mem_cons_self 44 _) hnc
  case case32 =>
    rename_i hEe hoct hn hr ht hb hf hs hcm
    rw [runChars_esc, if_neg hEe, if_neg hoct, if_neg hn, if_neg hr, if_neg ht, if_neg hb,
      if_neg hf, if_neg hs, if_neg hcm, if_pos rfl] at h
    exact Except.noConfusion h
  case case33 =>
    rename_i hEe hoct hn hr ht hb hf hs hcm hl ih
    rw [runChars_esc, if_neg hEe, if_neg hoct, if_neg hn, if_neg hr, if_neg ht, if_neg hb,
      if_neg hf, if_neg hs, if_neg hcm, if_neg hl] at h
    exact ih (fun hm => hnc (List.mem_cons_of_mem _ hm)) st2 h

/-!  Slot arithmetic for the binary sections. -/

theorem slotOff_nil (j : Nat) : slotOff [] j = none := by
  unfold slotOff littleEndianAt
  simp

theorem slotOff_singleton (b : Nat) (j : Nat) : slotOff [b] j = none := by
  unfold slotOff littleEndianAt
  cases j with
  | zero => rfl
  | succ n =>
    have e : 2 * (n + 1) = 2 * n + 1 + 1 := by ring
    rw [e]
    simp

theorem slotOff_zero (b0 b1 : Nat) (rest : List Nat) :
    slotOff (b0 :: b1 :: rest) 0 = some (toInt16 (b0 + 256 * b1)) := rfl

theorem slotOff_cons2 (b0 b1 : Nat) (rest : List Nat) (j : Nat) :
    slotOff (b0 :: b1 :: rest) (j + 1) = slotOff rest j := by
  unfold slotOff littleEndianAt
  have e1 : 2 * (j + 1) = 2 * j + 1 + 1 := by ring
  rw [e1]
  simp [List.get?]

theorem readNumbers_keys_ge (j0 : Nat) (nbuf : List Nat) :
    ∀ m, readNumbersGo j0 nbuf = some m → ∀ k v, alookup m k = some v → j0 ≤ k := by
  induction j0, nbuf using readNumbersGo.induct with
  | case1 j =>
    intro m hm k v hl
    cases hm
    simp [alookup] at hl
  | case2 j b => intro m hm; cases hm
  | case3 j b0 b1 rest hrec ih =>
    intro m hm
    unfold readNumbersGo at hm
    rw [hrec] at hm
    cases hm
  | case4 j b0 b1 rest m2 hrec ih =>
    intro m hm k v hl
    unfold readNumbersGo at hm
    rw [hrec] at hm
    cases hm
    by_cases hn : toInt16 (b0 + 256 * b1) > -1
    · rw [if_pos hn, alookup_cons] at hl
      split at hl
      · next he => omega
      · have := ih m2 hrec k v hl
        omega
    · rw [if_neg hn] at hl
      have := ih m2 hrec k v hl
      omega

theorem readNumbers_lookup (j0 : Nat) (nbuf : List Nat) :
    ∀ m, readNumbersGo j0 nbuf = some m → ∀ j o, slotOff nbuf j = some o →
      alookup m (j0 + j) = if -1 < o then some o else none := by
  induction j0, nbuf using readNumbersGo.induct with
  | case1 j =>
    intro m hm i o ho
    rw [slotOff_nil] at ho
    cases ho
  | case2 j b => intro m hm; cases hm
  | case3 j b0 b1 rest hrec ih =>
    intro m hm
    unfold readNumbersGo at hm
    rw [hrec] at hm
    cases hm
  | case4 j b0 b1 rest m2 hrec ih =>
    intro m hm i o ho
    unfold readNumbersGo at hm
    rw [hrec] at hm
    cases hm
    cases i with
    | zero =>
      rw [slotOff_zero] at ho
      cases ho
      rw [Nat.add_zero]
      by_cases hn : toInt16 (b0 + 256 * b1) > -1
      · rw [if_pos hn, alookup_cons, if_pos rfl, if_pos hn]
      · rw [if_neg hn, if_neg hn]
        cases hl : alookup m2 j with
        | none => rfl
        | some v =>
          have := readNumbers_keys_ge (j + 1) rest m2 hrec j v hl
          omega
    | succ i =>
      rw [slotOff_cons2] at ho
      have hX := ih m2 hrec i o ho
      by_cases hn : toInt16 (b0 + 256 * b1) > -1
      · rw [if_pos hn, alookup_cons, if_neg (by omega : ¬j = j + (i + 1)),
          show j + (i + 1) = j + 1 + i from by ring]
        exact hX
      · rw [if_neg hn, show j + (i + 1) = j + 1 + i from by ring]
        exact hX

theorem readNumbers_nonneg (j0 : Nat) (nbuf : List Nat) :
    ∀ m, readNumbersGo j0 nbuf = some m → ∀ k v, alookup m k = some v → 0 ≤ v := by
  induction j0, nbuf using readNumbersGo.induct with
  | case1 j =>
    intro m hm k v hl
    cases hm
    simp [alookup] at hl
  | case2 j b => intro m hm; cases hm
  | case3 j b0 b1 rest hrec ih =>
    intro m hm
    unfold readNumbersGo at hm
    rw [hrec] at hm
    cases hm
  | case4 j b0 b1 rest m2 hrec ih =>
    intro m hm k v hl
    unfold readNumbersGo at hm
    rw [hrec] at hm
    cases hm
    by_cases hn : toInt16 (b0 + 256 * b1) > -1
    · rw [if_pos hn, alookup_cons] at hl
      split at hl
      · cases hl
        omega
      · exact ih m2 hrec k v hl
    · rw [if_neg hn] at hl
      exact ih m2 hrec k v hl

theorem readStrings_keys_ge (j0 : Nat) (sbuf table : List Nat) :
    ∀ ms, readStringsGo j0 sbuf table = Except.ok ms →
      ∀ k v, alookup ms k = some v → j0 ≤ k := by
  induction j0, sbuf, table using readStringsGo.induct with
  | case1 j table =>
    intro ms hm k v hl
    cases hm
    simp [alookup] at hl
  | case2 j table b => intro ms hm; cases hm
  | case3 j table b0 b1 rest off hoff e hscan =>
    intro ms hm
    have hoff2 : toInt16 (b0 + 256 * b1) > -1 := hoff
    have hscan2 : scanNul (table.drop (toInt16 (b0 + 256 * b1)).toNat) = Except.error e := hscan
    unfold readStringsGo at hm
    rw [if_pos hoff2, hscan2] at hm
    cases hm
  | case4 j table b0 b1 rest off hoff v2 hscan e hrec ih =>
    intro ms hm
    have hoff2 : toInt16 (b0 + 256 * b1) > -1 := hoff
    have hscan2 : scanNul (table.drop (toInt16 (b0 + 256 * b1)).toNat) = Except.ok v2 := hscan
    unfold readStringsGo at hm
    rw [if_pos hoff2, hscan2, hrec] at hm
    cases hm
  | case5 j table b0 b1 rest off hoff v2 hscan ms2 hrec ih =>
    intro ms hm k v hl
    have hoff2 : toInt16 (b0 + 256 * b1) > -1 := hoff
    have hscan2 : scanNul (table.drop (toInt16 (b0 + 256 * b1)).toNat) = Except.ok v2 := hscan
    unfold readStringsGo at hm
    rw [if_pos hoff2, hscan2, hrec] at hm
    cases hm
    rw [alookup_cons] at hl
    split at hl
    · next he => omega
    · have := ih ms2 hrec k v hl
      omega
  | case6 j table b0 b1 rest off hoff ih =>
    intro ms hm k v hl
    have hoff2 : ¬toInt16 (b0 + 256 * b1) > -1 := hoff
    unfold readStringsGo at hm
    rw [if_neg hoff2] at hm
    have := ih ms hm k v hl
    omega

theorem readStrings_absent (j0 : Nat) (sbuf table : List Nat) :
    ∀ ms, readStringsGo j0 sbuf table = Except.ok ms →
      ∀ j o, slotOff sbuf j = some o → o ≤ -1 → alookup ms (j0 + j) = none := by
  induction j0, sbuf, table using readStringsGo.induct with
  | case1 j table =>
    intro ms hm i o ho
    rw [slotOff_nil] at ho
    cases ho
  | case2 j table b => intro ms hm; cases hm
  | case3 j table b0 b1 rest off hoff e hscan =>
    intro ms hm
    have hoff2 : toInt16 (b0 + 256 * b1) > -1 := hoff
    have hscan2 : scanNul (table.drop (toInt16 (b0 + 256 * b1)).toNat) = Except.error e := hscan
    unfold readStringsGo at hm
    rw [if_pos hoff2, hscan2] at hm
    cases hm
  | case4 j table b0 b1 rest off hoff v2 hscan e hrec ih =>
    intro ms hm
    have hoff2 : toInt16 (b0 + 256 * b1) > -1 := hoff
    have hscan2 : scanNul (table.drop (toInt16 (b0 + 256 * b1)).toNat) = Except.ok v2 := hscan
    unfold readStringsGo at hm
    rw [if_pos hoff2, hscan2, hrec] at hm
    cases hm
  | case5 j table b0 b1 rest off hoff v2 hscan ms2 hrec ih =>
    intro ms hm i o ho hneg
    have hoff2 : toInt16 (b0 + 256 * b1) > -1 := hoff
    have hscan2 : scanNul (table.drop (toInt16 (b0 + 256 * b1)).toNat) = Except.ok v2 := hscan
    unfold readStringsGo at hm
    rw [if_pos hoff2, hscan2, hrec] at hm
    cases hm
    cases i with
    | zero =>
      rw [slotOff_zero] at ho
      cases ho
      omega
    | succ i =>
      rw [slotOff_cons2] at ho
      rw [alookup_cons, if_neg (by omega : ¬j = j + (i + 1)),
        show j + (i + 1) = j + 1 + i from by ring]
      exact ih ms2 hrec i o ho hneg
  | case6 j table b0 b1 rest off hoff ih =>
    intro ms hm i o ho hneg
    have hoff2 : ¬toInt16 (b0 + 256 * b1) > -1 := hoff
    unfold readStringsGo at hm
    rw [if_neg hoff2] at hm
    cases i with
    | zero =>
      rw [Nat.add_zero]
      cases hl : alookup ms j with
      | none => rfl
      | some v =>
        have := readStrings_keys_ge (j + 1) rest table ms hm j v hl
        omega
    | succ i =>
      rw [slotOff_cons2] at ho
      rw [show j + (i + 1) = j + 1 + i from by ring]
      exact ih ms hm i o ho hneg

theorem scanNul_eq (seg : List Nat) (hne : seg ≠ []) :
    scanNul seg = if seg.contains 0 then
      Except.ok (seg.takeWhile (fun b => decide (b ≠ 0)))
    else Except.error BinErr.badString := by
  cases seg with
  | nil => exact absurd rfl hne
  | cons a l => rfl

theorem readStrings_badString_iff (j0 : Nat) (sbuf table : List Nat) :
    (∀ j o, slotOff sbuf j = some o → -1 < o → o.toNat < table.length) →
    (readStringsGo j0 sbuf table = Except.error BinErr.badString ↔
      ∃ j o, slotOff sbuf j = some o ∧ -1 < o ∧ (table.drop o.toNat).contains 0 = false) := by
  induction j0, sbuf, table using readStringsGo.induct with
  | case1 j table =>
    intro hin
    constructor
    · intro hbs; cases hbs
    · rintro ⟨jj, o, h1, h2, h3⟩
      rw [slotOff_nil] at h1
      cases h1
  | case2 j table b =>
    intro hin
    constructor
    · intro hbs
      injection hbs with he
      cases he
    · rintro ⟨jj, o, h1, h2, h3⟩
      rw [slotOff_singleton] at h1
      cases h1
  | case3 j table b0 b1 rest off hoff e hscan =>
    intro hin
    have hoff2 : toInt16 (b0 + 256 * b1) > -1 := hoff
    have hscan2 : scanNul (table.drop (toInt16 (b0 + 256 * b1)).toNat) = Except.error e := hscan
    have hlt : (toInt16 (b0 + 256 * b1)).toNat < table.length :=
      hin 0 _ (slotOff_zero b0 b1 rest) hoff2
    have hne : table.drop (toInt16 (b0 + 256 * b1)).toNat ≠ [] := by
      intro hh
      rw [List.drop_eq_nil_iff_le] at hh
      omega
    rw [scanNul_eq _ hne] at hscan2
    by_cases hc : (table.drop (toInt16 (b0 + 256 * b1)).toNat).contains 0
    · rw [if_pos hc] at hscan2
      cases hscan2
    · rw [if_neg hc] at hscan2
      injection hscan2 with he
      have hLHS : readStringsGo j (b0 :: b1 :: rest) table = Except.error e := by
        unfold readStringsGo
        rw [if_pos hoff2, hscan]
      constructor
      · intro _
        exact ⟨0, toInt16 (b0 + 256 * b1), slotOff_zero b0 b1 rest, hoff2,
          Bool.eq_false_iff.mpr hc⟩
      · intro _
        rw [hLHS, ← he]
  | case4 j table b0 b1 rest off hoff v2 hscan e hrec ih =>
    intro hin
    have hinr : ∀ jj o, slotOff rest jj = some o → -1 < o → o.toNat < table.length :=
      fun jj o hj => hin (jj + 1) o (by rw [slotOff_cons2]; exact hj)
    have hiff := ih hinr
    have hoff2 : toInt16 (b0 + 256 * b1) > -1 := hoff
    have hscan2 : scanNul (table.drop (toInt16 (b0 + 256 * b1)).toNat) = Except.ok v2 := hscan
    have hlt : (toInt16 (b0 + 256 * b1)).toNat < table.length :=
      hin 0 _ (slotOff_zero b0 b1 rest) hoff2
    have hne : table.drop (toInt16 (b0 + 256 * b1)).toNat ≠ [] := by
      intro hh
      rw [List.drop_eq_nil_iff_le] at hh
      omega
    have hcont : (table.drop (toInt16 (b0 + 256 * b1)).toNat).contains 0 = true := by
      rw [scanNul_eq _ hne] at hscan2
      by_cases hc : (table.drop (toInt16 (b0 + 256 * b1)).toNat).contains 0
      · exact hc
      · rw [if_neg hc] at hscan2
        cases hscan2
    have hLHS : readStringsGo j (b0 :: b1 :: rest) table = Except.error e := by
      unfold readStringsGo
      rw [if_pos hoff2, hscan, hrec]
    constructor
    · intro hbs
      rw [hLHS] at hbs
      injection hbs with he
      obtain ⟨jj, o, h1, h2, h3⟩ := hiff.mp (by rw [← he]; exact hrec)
      exact ⟨jj + 1, o, by rw [slotOff_cons2]; exact h1, h2, h3⟩
    · rintro ⟨jj, o, h1, h2, h3⟩
      cases jj with
      | zero =>
        rw [slotOff_zero] at h1
        cases h1
        rw [hcont] at h3
        cases h3
      | succ jj =>
        rw [slotOff_cons2] at h1
        have hbad := hiff.mpr ⟨jj, o, h1, h2, h3⟩
        rw [hrec] at hbad
        injection hbad with he
        rw [hLHS, he]
  | case5 j table b0 b1 rest off hoff v2 hscan ms2 hrec ih =>
    intro hin
    have hinr : ∀ jj o, slotOff rest jj = some o → -1 < o → o.toNat < table.length :=
      fun jj o hj => hin (jj + 1) o (by rw [slotOff_cons2]; exact hj)
    have hiff := ih hinr
    have hoff2 : toInt16 (b0 + 256 * b1) > -1 := hoff
    have hscan2 : scanNul (table.drop (toInt16 (b0 + 256 * b1)).toNat) = Except.ok v2 := hscan
    have hlt : (toInt16 (b0 + 256 * b1)).toNat < table.length :=
      hin 0 _ (slotOff_zero b0 b1 rest) hoff2
    have hne : table.drop (toInt16 (b0 + 256 * b1)).toNat ≠ [] := by
      intro hh
      rw [List.drop_eq_nil_iff_le] at hh
      omega
    have hcont : (table.drop (toInt16 (b0 + 256 * b1)).toNat).contains 0 = true := by
      rw [scanNul_eq _ hne] at hscan2
      by_cases hc : (table.drop (toInt16 (b0 + 256 * b1)).toNat).contains 0
      · exact hc
      · rw [if_neg hc] at hscan2
        cases hscan2
    have hLHS : readStringsGo j (b0 :: b1 :: rest) table = Except.ok ((j, v2) :: ms2) := by
      unfold readStringsGo
      rw [if_pos hoff2, hscan, hrec]
    constructor
    · intro hbs
      rw [hLHS] at hbs
      cases hbs
    · rintro ⟨jj, o, h1, h2, h3⟩
      cases jj with
      | zero =>
        rw [slotOff_zero] at h1
        cases h1
        rw [hcont] at h3
        cases h3
      | succ jj =>
        rw [slotOff_cons2] at h1
        have hbad := hiff.mpr ⟨jj, o, h1, h2, h3⟩
        rw [hrec] at hbad
        cases hbad
  | case6 j table b0 b1 rest off hoff ih =>
    intro hin
    have hinr : ∀ jj o, slotOff rest jj = some o → -1 < o → o.toNat < table.length :=
      fun jj o hj => hin (jj + 1) o (by rw [slotOff_cons2]; exact hj)
    have hiff := ih hinr
    have hoff2 : ¬toInt16 (b0 + 256 * b1) > -1 := hoff
    have hLHS : readStringsGo j (b0 :: b1 :: rest) table = readStringsGo (j + 1) rest table := by
      conv_lhs => unfold readStringsGo
      rw [if_neg hoff2]
    rw [hLHS, hiff]
    constructor
    · rintro ⟨jj, o, h1, h2, h3⟩
      exact ⟨jj + 1, o, by rw [slotOff_cons2]; exact h1, h2, h3⟩
    · rintro ⟨jj, o, h1, h2, h3⟩
      cases jj with
      | zero =>
        rw [slotOff_zero] at h1
        cases h1
        exact absurd h2 hoff2
      | succ jj =>
        rw [slotOff_cons2] at h1
        exact ⟨jj, o, h1, h2, h3⟩

theorem littleEndianAt_none (i : Nat) (b : List Nat) (h : b.length < i + 2) :
    littleEndianAt i b = none := by
  unfold littleEndianAt
  cases h1 : b.get? i with
  | none => rfl
  | some x =>
    have h2 : b.get? (i + 1) = none := List.get?_eq_none.mpr (by omega)
    rw [h2]

theorem littleEndianAt_some (i : Nat) (b : List Nat) (h : i + 1 < b.length) :
    littleEndianAt i b = some (toInt16 (b.getD i 0 + 256 * b.getD (i + 1) 0)) := by
  unfold littleEndianAt
  have hi : i < b.length := by omega
  rw [List.get?_eq_get hi, List.get?_eq_get h, List.getD_eq_get b 0 hi, List.getD_eq_get b 0 h]

theorem getD_take_lt (data : List Nat) (n j : Nat) (hj : j < n) :
    (data.take n).getD j 0 = data.getD j 0 := by
  rw [List.getD_eq_getD_get?, List.getD_eq_getD_get?, List.get?_eq_getElem?,
    List.get?_eq_getElem?, List.getElem?_take_of_lt hj]

/-- The read buffer as shrunk (or not) by `readHeader`. -/
theorem bufOf_length (data : List Nat) :
    (if data.length < 3000 then data else data.take 3000).length = min data.length 3000 := by
  split
  · omega
  · rw [List.length_take]
    omega

theorem readFields_some (data : List Nat) (h12 : 12 ≤ data.length) :
    readFields (if data.length < 3000 then data else data.take 3000) =
      some [hdrField data 0, hdrField data 1, hdrField data 2, hdrField data 3,
        hdrField data 4, hdrField data 5] := by
  by_cases h3 : data.length < 3000
  · rw [if_pos h3]
    simp only [readFields,
      littleEndianAt_some 0 data (by omega), littleEndianAt_some 2 data (by omega),
      littleEndianAt_some 4 data (by omega), littleEndianAt_some 6 data (by omega),
      littleEndianAt_some 8 data (by omega), littleEndianAt_some 10 data (by omega)]
    rfl
  · rw [if_neg h3]
    have hlt : 12 ≤ (data.take 3000).length := by
      rw [List.length_take]
      omega
    simp only [readFields,
      littleEndianAt_some 0 (data.take 3000) (by omega),
      littleEndianAt_some 2 (data.take 3000) (by omega),
      littleEndianAt_some 4 (data.take 3000) (by omega),
      littleEndianAt_some 6 (data.take 3000) (by omega),
      littleEndianAt_some 8 (data.take 3000) (by omega),
      littleEndianAt_some 10 (data.take 3000) (by omega),
      getD_take_lt data 3000 0 (by omega), getD_take_lt data 3000 1 (by omega),
      getD_take_lt data 3000 2 (by omega), getD_take_lt data 3000 3 (by omega),
      getD_take_lt data 3000 4 (by omega), getD_take_lt data 3000 5 (by omega),
      getD_take_lt data 3000 6 (by omega), getD_take_lt data 3000 7 (by omega),
      getD_take_lt data 3000 8 (by omega), getD_take_lt data 3000 9 (by omega),
      getD_take_lt data 3000 10 (by omega), getD_take_lt data 3000 11 (by omega)]
    rfl

theorem readFields_none_mid (data : List Nat) (h6 : 6 ≤ data.length)
    (h12 : data.length < 12) : readFields data = none := by
  by_cases h8 : data.length < 8
  · simp only [readFields,
      littleEndianAt_some 0 data (by omega), littleEndianAt_some 2 data (by omega),
      littleEndianAt_some 4 data (by omega), littleEndianAt_none 6 data (by omega)]
  · by_cases h10 : data.length < 10
    · simp only [readFields,
        littleEndianAt_some 0 data (by omega), littleEndianAt_some 2 data (by omega),
        littleEndianAt_some 4 data (by omega), littleEndianAt_some 6 data (by omega),
        littleEndianAt_none 8 data (by omega)]
    · simp only [readFields,
        littleEndianAt_some 0 data (by omega), littleEndianAt_some 2 data (by omega),
        littleEndianAt_some 4 data (by omega), littleEndianAt_some 6 data (by omega),
        littleEndianAt_some 8 data (by omega), littleEndianAt_none 10 data (by omega)]

/-!  The claims. -/

/-- C1, counterexample: for the source chain `A use=B`, `B use=C` where `B`
defines `cols#5` and `C` defines `cols#9` and `A` does not define `cols`, the
parsed and resolved batch leaves `A` with numeric value 9 — the deepest
ancestor `C`'s value — not `B`'s value 5 as the claim states. -/
theorem c1_chain_counterexample :
    (Parse demoCat 9 chainSrc).map (fun ts => (ts.get? 0).map (fun t => alookup t.Nums 0))
      = Except.ok (some (some 9)) ∧ (9 : Nat) ≠ 5 :=
  ⟨rfl, by decide⟩

/-- C1, amended: `resolveUses` recursively resolves the referenced model's own
`Uses` *into the referencing model* (the Go recursion passes `ti`, not `u`),
merging ancestors-of-ancestors first; so for `A uses B`, `B uses C` with `B`
and `C` both defining the same numeric index (values `vB`, `vC`) not defined
on `A`, `A` ends up with the deepest ancestor's value `vC`, for any values. -/
theorem c1_chain_merge_deepest_wins (vB vC : Nat) :
    (resolveAll 3 [chainA, chainB vB, chainC vC]).map
      (fun ts => (ts.get? 0).map (fun t => alookup t.Nums 0)) = some (some (some vC)) := rfl

/-- C2, counterexample: the extended-capability index space is not scoped per
entry.  Parsing two entries that each introduce one fresh non-standard bool
name gives the second entry's first fresh name (`yyy`) extended index 1, not
0, and the second entry has no extended bool at index 0. -/
theorem c2_ext_index_counterexample :
    (Parse emptyCat 3 extSrcA).map
        (fun ts => (ts.get? 1).map (fun t => (alookup t.ExtBoolNames 1, alookup t.ExtBools 0)))
      = Except.ok (some (some (bytes ("yyy")), none)) ∧
    (some (bytes ("yyy")) : Option (List Nat)) ≠ none :=
  ⟨rfl, Option.some_ne_none _⟩

/-- C2, amended: extended indices are first-seen-order starting at 0 but
scoped to the whole `Parse` call — the counters and name tables are shared
across entries — so a fresh name in a later entry takes the next batch-wide
index (`yyy` gets 1), and a name already seen in an earlier entry reuses its
index (`zzz` keeps 0 in the second entry). -/
theorem c2_ext_index_batch_scoped :
    (Parse emptyCat 3 extSrcB).map (fun ts => ts.map (fun t => (t.ExtBoolNames, t.ExtBools)))
      = Except.ok [([(0, bytes ("zzz"))], [(0, true)]),
          ([(0, bytes ("zzz")), (1, bytes ("yyy"))], [(0, true), (1, true)])] := rfl

/-- C3, counterexample: a numeric capability whose value text fails to parse
is *not* dropped: `nn#zz,` stores extended numeric value 0 under the name
`nn` (the diagnostic is only logged). -/
theorem c3_bad_number_counterexample :
    (Parse emptyCat 3 badNumSrc).map
        (fun ts => (ts.get? 0).map (fun t => (alookup t.ExtNumNames 0, alookup t.ExtNums 0)))
      = Except.ok (some (some (bytes ("nn")), some 0)) ∧
    (some (0 : Nat)) ≠ (none : Option Nat) :=
  ⟨rfl, Option.some_ne_none _⟩

/-- C3, amended: on a failed numeric parse a diagnostic is logged and the
capability is still stored, with whatever value `ParseUint` returned — 0 for
a syntax error (`zz`), `2^32 - 1` for an out-of-range literal — both for
extended names and for standard catalog names (`cols#zz,` stores 0). -/
theorem c3_bad_number_stored :
    (Parse emptyCat 3 badNumSrc).map (fun ts => ts.map (fun t => (t.ExtNumNames, t.ExtNums)))
      = Except.ok [([(1, bytes ("mm")), (0, bytes ("nn"))], [(1, 4294967295), (0, 0)])] ∧
    (Parse demoCat 3 badNumStd).map (fun ts => ts.map Terminfo.Nums) = Except.ok [[(0, 0)]] :=
  ⟨rfl, rfl⟩

/-- C4: the Source Parser does *not* return normally on every input: a string
value containing the escape sequence backslash-`l` hits
`panic("WTF: weird format: ...")`, modelled as the `weirdFormat` outcome, so
the overall parse aborts instead of returning the entries decoded so far. -/
theorem c4_escape_l_panics : Parse emptyCat 3 escLSrc = Except.error PErr.weirdFormat := rfl

/-- C5, counterexample: an 8-byte buffer is shorter than the 12-byte header
but does not fail with `SmallFile` — the size guard compares against
`len(r.h)` = 6, and reading the header fields then indexes out of range
(a panic, not an error).  And a 12-byte buffer declaring 7 numeric *words*
(14 bytes when doubled, more than the buffer holds) passes the header checks,
because `lenFile` sums the raw fields without doubling. -/
theorem c5_smallFile_counterexample :
    readHeaderGo (List.replicate 8 0) = Except.error BinErr.outOfRange ∧
    BinErr.outOfRange ≠ BinErr.smallFile ∧
    readHeaderGo [26, 1, 0, 0, 0, 0, 7, 0, 0, 0, 0, 0]
      = Except.ok ([282, 0, 0, 7, 0, 0], [26, 1, 0, 0, 0, 0, 7, 0, 0, 0, 0, 0]) :=
  ⟨rfl, by decide, rfl⟩

/-- C5, amended: `readHeader` fails with `SmallFile` exactly when the buffer
is shorter than 6 bytes (`len(r.h)` is the array length 6, not the 12-byte
header size), or when it holds the full 12-byte header and the wrapping
`int16` sum of the five non-magic fields — *without* doubling the word
counts — exceeds the read-buffer length (the file size capped at the 3000-byte
scratch buffer).  Buffers of 6 to 11 bytes panic with an out-of-range index
instead. -/
theorem c5_smallFile_iff (data : List Nat) :
    readHeaderGo data = Except.error BinErr.smallFile ↔
      (data.length < 6 ∨
        (12 ≤ data.length ∧ ((min data.length 3000 : Nat) : Int) < lenFileData data)) := by
  unfold readHeaderGo
  by_cases h6 : data.length < 6
  · rw [if_pos h6]
    exact iff_of_true rfl (Or.inl h6)
  · rw [if_neg h6]
    by_cases h12 : 12 ≤ data.length
    · simp only [readFields_some data h12]
      rw [bufOf_length]
      have hlf : lenFile [hdrField data 0, hdrField data 1, hdrField data 2, hdrField data 3,
          hdrField data 4, hdrField data 5] = lenFileData data := rfl
      rw [hlf]
      by_cases hl : ((min data.length 3000 : Nat) : Int) < lenFileData data
      · rw [if_pos hl]
        exact iff_of_true rfl (Or.inr ⟨h12, hl⟩)
      · rw [if_neg hl]
        constructor
        · intro hx
          split at hx
          · exact BinErr.noConfusion (Except.error.inj hx)
          · exact Except.noConfusion hx
        · rintro (h | ⟨_, hcon⟩)
          · omega
          · exact absurd hcon hl
    · have hbuf : (if data.length < 3000 then data else data.take 3000) = data :=
        if_pos (by omega)
      rw [hbuf]
      simp only [readFields_none_mid data (by omega) (by omega)]
      refine iff_of_false (fun hx => BinErr.noConfusion (Except.error.inj hx)) ?_
      rintro (h | ⟨hcon, _⟩) <;> omega

/-- C6, counterexample: after `Parse` resolves the batch, `Uses` is *not*
empty — the entry `a` that referenced `b` still carries `Uses = [b]`. -/
theorem c6_uses_cleared_counterexample :
    (Parse demoCat 3 usesSrc).map (fun ts => ts.map Terminfo.Uses)
      = Except.ok [[bytes ("b")], []] ∧ ([bytes ("b")] : List (List Nat)) ≠ [] :=
  ⟨rfl, List.cons_ne_nil _ _⟩

/-- C6, amended: the resolver iterates each model's `Uses` but never clears
it — after the resolve loop every entry's `Uses` is exactly what parsing
accumulated. -/
theorem c6_resolver_never_clears_uses (fuel : Nat) (tis tis2 : List Terminfo)
    (h : resolveAll fuel tis = some tis2) (j : Nat) :
    (tis2.get? j).map Terminfo.Uses = (tis.get? j).map Terminfo.Uses := by
  obtain ⟨hl, he⟩ := resolveAll_extends fuel tis tis2 h
  by_cases hj : j < tis.length
  · have h1 : tis.get? j = some (tis.get ⟨j, hj⟩) := List.get?_eq_get hj
    have hj2 : j < tis2.length := by omega
    have h2 : tis2.get? j = some (tis2.get ⟨j, hj2⟩) := List.get?_eq_get hj2
    rw [h1, h2]
    have huse := (he j _ _ h1 h2).2.1
    exact congrArg some huse
  · rw [List.get?_eq_none.mpr (by omega), List.get?_eq_none.mpr (by omega)]

theorem c6_resolver_never_clears_uses_witness :
    resolveAll 2 [wTiX, wTiY] = some [wTiX2, wTiY] ∧
    ([wTiX2, wTiY].get? 0).map Terminfo.Uses = ([wTiX, wTiY].get? 0).map Terminfo.Uses :=
  ⟨rfl, c6_resolver_never_clears_uses 2 [wTiX, wTiY] [wTiX2, wTiY] rfl 0⟩

/-- C7: first-definition-wins — `resolveUses` never changes a capability
binding that already exists on any model of the batch: every binding of every
entry before the call is still present, unchanged, afterwards (whether it was
set during parsing or by an earlier `use` in the same list). -/
theorem c7_first_definition_wins (fuel : Nat) (tis : List Terminfo) (i : Nat)
    (use : List Nat) (tis2 : List Terminfo) (h : resolveUses fuel tis i use = some tis2)
    (j : Nat) (t t2 : Terminfo) (hj : tis.get? j = some t) (hj2 : tis2.get? j = some t2) :
    capsPreserved t t2 :=
  ((resolveUses_extends fuel tis i use tis2 h).2 j t t2 hj hj2).2.2

theorem c7_first_definition_wins_witness :
    resolveUses 2 [wTiX, wTiY] 0 (bytes ("y")) = some [wTiX2, wTiY] ∧
    [wTiX, wTiY].get? 0 = some wTiX ∧ [wTiX2, wTiY].get? 0 = some wTiX2 ∧
    alookup wTiX.Bools 3 = some true ∧ alookup wTiX2.Bools 3 = some true ∧
    capsPreserved wTiX wTiX2 :=
  ⟨rfl, rfl, rfl, rfl, rfl,
    c7_first_definition_wins 2 [wTiX, wTiY] 0 (bytes ("y")) [wTiX2, wTiY] rfl 0 wTiX wTiX2
      rfl rfl⟩

/-- C8: numeric slots with value `> -1` are stored at the slot index and every
stored value is non-negative; slots `≤ -1` leave no entry, and string-offset
slots `≤ -1` record no string. -/
theorem c8_sentinel_absent (nbuf : List Nat) (m : List (Nat × Int))
    (hm : readNumbersGo 0 nbuf = some m)
    (sbuf table : List Nat) (ms : List (Nat × List Nat))
    (hs : readStringsGo 0 sbuf table = Except.ok ms) :
    (∀ k v, alookup m k = some v → 0 ≤ v) ∧
    (∀ j o, slotOff nbuf j = some o → alookup m j = if -1 < o then some o else none) ∧
    (∀ j o, slotOff sbuf j = some o → o ≤ -1 → alookup ms j = none) := by
  refine ⟨readNumbers_nonneg 0 nbuf m hm, fun j o ho => ?_, fun j o ho hneg => ?_⟩
  · have := readNumbers_lookup 0 nbuf m hm j o ho
    rwa [Nat.zero_add] at this
  · have := readStrings_absent 0 sbuf table ms hs j o ho hneg
    rwa [Nat.zero_add] at this

theorem c8_sentinel_absent_witness :
    readNumbersGo 0 [5, 0, 255, 255] = some [(0, 5)] ∧
    readStringsGo 0 [255, 255] [] = Except.ok [] ∧
    ((∀ k v, alookup [(0, (5 : Int))] k = some v → 0 ≤ v) ∧
     (∀ j o, slotOff [5, 0, 255, 255] j = some o →
        alookup [(0, (5 : Int))] j = if -1 < o then some o else none) ∧
     (∀ j o, slotOff [255, 255] j = some o → o ≤ -1 →
        alookup ([] : List (Nat × List Nat)) j = none)) :=
  ⟨rfl, rfl, c8_sentinel_absent [5, 0, 255, 255] [(0, 5)] rfl [255, 255] [] [] rfl⟩

/-- C9, counterexample: a non-absent string offset at (or beyond) the table's
end does not yield `BadString` — the first `table[x]` access is already out of
range, a panic: offset 0 against an empty table. -/
theorem c9_badstring_counterexample :
    readStringsGo 0 [0, 0] [] = Except.error BinErr.outOfRange ∧
    BinErr.outOfRange ≠ BinErr.badString :=
  ⟨rfl, by decide⟩

/-- C9, amended: provided every non-absent offset lands strictly inside the
table (otherwise the scan panics with an out-of-range index), the string
reader fails with `BadString` exactly when some non-absent offset has no NUL
byte at or after it in the table. -/
theorem c9_badstring_iff (sbuf table : List Nat)
    (hin : ∀ j o, slotOff sbuf j = some o → -1 < o → o.toNat < table.length) :
    readStringsGo 0 sbuf table = Except.error BinErr.badString ↔
      ∃ j o, slotOff sbuf j = some o ∧ -1 < o ∧ (table.drop o.toNat).contains 0 = false :=
  readStrings_badString_iff 0 sbuf table hin

theorem c9_badstring_iff_witness :
    (∀ j o, slotOff [0, 0] j = some o → -1 < o → o.toNat < ([97, 0] : List Nat).length) ∧
    (readStringsGo 0 [0, 0] [97, 0] = Except.error BinErr.badString ↔
      ∃ j o, slotOff [0, 0] j = some o ∧ -1 < o ∧
        (([97, 0] : List Nat).drop o.toNat).contains 0 = false) := by
  have hin : ∀ j o, slotOff [0, 0] j = some o → -1 < o →
      o.toNat < ([97, 0] : List Nat).length := by
    intro j o hj _
    cases j with
    | zero =>
      rw [slotOff_zero] at hj
      cases hj
      decide
    | succ n =>
      rw [slotOff_cons2, slotOff_nil] at hj
      cases hj
  exact ⟨hin, c9_badstring_iff [0, 0] [97, 0] hin⟩

/-- C10: a capability token not terminated by `,` is never added to any
model: over a comma-free stretch the machine leaves all models untouched, and
at end of input the pending accumulator and name are dropped (`foo,\n\tam`
yields no capability); the accumulator, pending name and machine state carry
across line boundaries (`cols#8` + next line `0,` yields `cols = 80`) and
even into a new entry's lines (the split token lands on `bar`, not `foo`). -/
theorem c10_unterminated_token_invariant (cat : Catalog) (st : PState) (line : List Nat)
    (st2 : PState) (hnc : 44 ∉ line) (h : runChars cat st line = Except.ok st2) :
    (st2.ti = st.ti ∧ st2.tis = st.tis) ∧
    Parse demoCat 3 pendSrc = Except.ok [emptyTi [bytes ("foo")]] ∧
    (Parse demoCat 3 carrySrc).map (fun ts => ts.map Terminfo.Nums) = Except.ok [[(0, 80)]] ∧
    (Parse demoCat 3 carry2Src).map (fun ts => ts.map Terminfo.Nums)
      = Except.ok [[], [(0, 80)]] :=
  ⟨runChars_no_comma cat st line hnc st2 h, rfl, rfl, rfl⟩

theorem c10_unterminated_token_invariant_witness :
    (44 ∉ bytes ("am")) ∧
    runChars demoCat initPState (bytes ("am"))
      = Except.ok { initPState with buf := bytes ("am") } ∧
    ((({ initPState with buf := bytes ("am") } : PState).ti = initPState.ti ∧
      ({ initPState with buf := bytes ("am") } : PState).tis = initPState.tis) ∧
     Parse demoCat 3 pendSrc = Except.ok [emptyTi [bytes ("foo")]] ∧
     (Parse demoCat 3 carrySrc).map (fun ts => ts.map Terminfo.Nums) = Except.ok [[(0, 80)]] ∧
     (Parse demoCat 3 carry2Src).map (fun ts => ts.map Terminfo.Nums)
       = Except.ok [[], [(0, 80)]]) :=
  ⟨by decide, rfl,
    c10_unterminated_token_invariant demoCat initPState (bytes ("am"))
      { initPState with buf := bytes ("am") } (by decide) rfl⟩

end TerminfoSpec
